import Mathlib

/-!
Verification of the gorouter route registry (registry package,
src/test_util/helpers.go, second file) against its specification.

The registry code itself is embedded directly from the source.  The `route`
package it uses (`route.Uri`, `route.Endpoint`, `route.Pool`) is not part of
the analyzed excerpt, so those value types are modelled from the
specification text (sections 4.1 to 4.3); each such definition carries a
doc comment starting with `Modelled from the spec:`.

Go `time.Time` instants and `time.Duration` values are modelled as natural
numbers; the `time.Now()` calls inside registry and pool operations are
modelled by threading an explicit `now : Nat` argument.  Go maps are
modelled as association lists with the usual insert-replaces semantics.
-/

set_option autoImplicit false

/-- Modelled from the spec: a Route URI is "a normalized route key (host +
optional path)"; the host portion is a sequence of dot-separated labels
(left-most first) and the optional path suffix is kept verbatim.  The
missing source is `route.Uri` of the route package. -/
structure Uri where
  host : List String
  path : String
deriving DecidableEq, Repr

/-- Character-by-character lowercasing of a string (what Go's
strings.ToLower does on ASCII input). -/
def lowerString (s : String) : String :=
  ⟨s.data.map Char.toLower⟩

/-- Modelled from the spec: "Normalize(raw) lowercases and returns a
canonical key"; comparisons and storage are case-insensitive.  The missing
source is `route.Uri.ToLower`. -/
def Uri.ToLower (u : Uri) : Uri :=
  { host := u.host.map lowerString, path := lowerString u.path }

/-- Modelled from the spec: "NextWildcard(uri) produces the next, strictly
more general, wildcard form of the URI by replacing the left-most host
label with a wildcard marker; it reports failure once no further
generalization is possible (e.g., the pattern is already a single wildcard
label, or has no further labels to generalize)" and "a URI with a path
suffix preserves the path suffix unchanged while only the host portion is
generalized".  The missing source is `route.Uri.NextWildcard`, which in Go
returns the pair `(Uri, error)`; here the second component is `true` when
no error occurred, and on failure the receiver is returned unchanged
alongside the error, following the Go convention for such pairs. -/
def Uri.NextWildcard (u : Uri) : Uri × Bool :=
  match u.host with
  | [] => (u, false)
  | l :: rest =>
    if l = "*" then
      match rest with
      | [] => (u, false)
      | _ :: rest2 => ({ host := "*" :: rest2, path := u.path }, true)
    else ({ host := "*" :: rest, path := u.path }, true)

/-- Specificity measure of a URI: the number of host labels, plus one when
the leading label is not yet the wildcard marker.  Each successful
`NextWildcard` step strictly decreases it, which is what makes the lookup
fallback loop terminate. -/
def uriMeasure (u : Uri) : Nat :=
  u.host.length + (if u.host.headD "" = "*" then 0 else 1)

theorem nextWildcard_true_measure (u u2 : Uri) (h : u.NextWildcard = (u2, true)) :
    uriMeasure u2 < uriMeasure u := by
  obtain ⟨host, path⟩ := u
  cases host with
  | nil => simp [Uri.NextWildcard] at h
  | cons l rest =>
    by_cases hl : l = "*"
    · cases rest with
      | nil => simp [Uri.NextWildcard, hl] at h
      | cons r2 rest2 =>
        simp [Uri.NextWildcard, hl] at h
        subst h
        simp [uriMeasure, hl]
    · simp [Uri.NextWildcard, hl] at h
      subst h
      simp [uriMeasure, hl]

theorem nextWildcard_snd_true_measure (u : Uri) (h : u.NextWildcard.2 = true) :
    uriMeasure u.NextWildcard.1 < uriMeasure u := by
  cases hu : u.NextWildcard with
  | mk u2 b =>
    rw [hu] at h
    cases h
    exact nextWildcard_true_measure u u2 hu

/-- Modelled from the spec: an Endpoint is "a backend instance descriptor";
its identity is "a canonical address (host:port)" and it carries "arbitrary
tags/metadata (used for logging/selection, not matching)".  The missing
source is `route.Endpoint`. -/
structure Endpoint where
  addr : String
  tags : List (String × String)
deriving DecidableEq, Repr

/-- Modelled from the spec: "exposes a canonical-address accessor used as
the dedup key everywhere else".  The missing source is
`route.Endpoint.CanonicalAddr`. -/
def Endpoint.CanonicalAddr (e : Endpoint) : String := e.addr

/-- An endpoint as stored inside a pool, together with the last-seen
timestamp that the spec says is "owned by the pool, not the endpoint's
creator". -/
structure PoolEntry where
  endpoint : Endpoint
  updatedAt : Nat
deriving DecidableEq, Repr

/-- Modelled from the spec: a Route Pool "owns an unordered collection of
Endpoints keyed by canonical address, plus a per-pool freshness parameter
supplied at creation" and a pool-level last-touched instant reset by
`MarkUpdated`.  The missing source is `route.Pool`. -/
structure Pool where
  subThreshold : Nat
  entries : List (String × PoolEntry)
  lastUpdated : Nat
deriving DecidableEq, Repr

/-- Association-list find, modelling a Go map read `m[k]`. -/
def alFind {α β : Type} [DecidableEq α] (k : α) : List (α × β) → Option β
  | [] => none
  | kv :: rest => if kv.1 = k then some kv.2 else alFind k rest

/-- Association-list insert, modelling a Go map write `m[k] = v`: the
binding for `k` is replaced when present, appended otherwise. -/
def alInsert {α β : Type} [DecidableEq α] (k : α) (v : β) : List (α × β) → List (α × β)
  | [] => [(k, v)]
  | kv :: rest => if kv.1 = k then (k, v) :: rest else kv :: alInsert k v rest

/-- Association-list delete, modelling the Go builtin `delete(m, k)`. -/
def alDelete {α β : Type} [DecidableEq α] (k : α) : List (α × β) → List (α × β)
  | [] => []
  | kv :: rest => if kv.1 = k then alDelete k rest else kv :: alDelete k rest

/-- Modelled from the spec: route.NewPool constructs an empty pool holding
the "per-pool freshness parameter supplied at creation".  The registry
supplies `dropletStaleThreshold / 4` for it (helpers.go line 121). -/
def NewPool (subThreshold : Nat) : Pool :=
  { subThreshold := subThreshold, entries := [], lastUpdated := 0 }

/-- Modelled from the spec: "Put(endpoint): inserts or refreshes; updates
the endpoint's last-seen timestamp to now; idempotent under repeated calls
with the same address" and "metadata is overwritten on re-registration".
The internal `time.Now()` of the Go implementation is the `now` argument.
The missing source is `route.Pool.Put`. -/
def Pool.Put (p : Pool) (e : Endpoint) (now : Nat) : Pool :=
  { p with entries := alInsert e.CanonicalAddr { endpoint := e, updatedAt := now } p.entries }

/-- Modelled from the spec: "Remove(endpoint): deletes by canonical
address; no-op (not an error) if absent".  The missing source is
`route.Pool.Remove`. -/
def Pool.Remove (p : Pool) (e : Endpoint) : Pool :=
  { p with entries := alDelete e.CanonicalAddr p.entries }

/-- Modelled from the spec: "IsEmpty() -> bool: true iff no endpoints
remain".  The missing source is `route.Pool.IsEmpty`. -/
def Pool.IsEmpty (p : Pool) : Bool :=
  p.entries.isEmpty

/-- Removal condition of the pruning pass: an entry is evicted when its
last-seen timestamp is "older than now - staleThreshold"; in Nat
arithmetic this is `updatedAt + staleThreshold < now`, which avoids
truncated subtraction and agrees with the integer inequality. -/
def pruneEntries (staleThreshold now : Nat) : List (String × PoolEntry) → List (String × PoolEntry)
  | [] => []
  | kv :: rest =>
    if kv.2.updatedAt + staleThreshold < now then pruneEntries staleThreshold now rest
    else kv :: pruneEntries staleThreshold now rest

/-- Modelled from the spec: "PruneEndpoints(staleThreshold): removes every
endpoint whose last-seen timestamp is older than now - staleThreshold;
called by the Registry's background sweep".  The internal `time.Now()` is
the `now` argument.  The missing source is `route.Pool.PruneEndpoints`. -/
def Pool.PruneEndpoints (p : Pool) (staleThreshold now : Nat) : Pool :=
  { p with entries := pruneEntries staleThreshold now p.entries }

/-- Modelled from the spec: "MarkUpdated(now): resets the pool-level last
touched notion ... without individually touching every endpoint's own
timestamp".  The missing source is `route.Pool.MarkUpdated`. -/
def Pool.MarkUpdated (p : Pool) (now : Nat) : Pool :=
  { p with lastUpdated := now }

/-- Modelled from the spec: "Each(fn): applies fn to every endpoint; used
for aggregate statistics".  Rendered functionally as a fold of the
accumulator the Go callback closes over.  The missing source is
`route.Pool.Each`. -/
def Pool.Each {σ : Type} (p : Pool) (f : σ → Endpoint → σ) (init : σ) : σ :=
  p.entries.foldl (fun s kv => f s kv.2.endpoint) init

/-- The route registry state (helpers.go lines 82 to 96): the
`byUri` map, the two configured durations, the ticker handle of the
pruning cycle (an index into the runtime ticker table of `SweepSys`
below, `none` for Go's nil) and the last-mutation timestamp.  The logger
and the NATS message-bus handle play no role in any registry operation
and are omitted. -/
structure RouteRegistry where
  byUri : List (Uri × Pool)
  pruneStaleDropletsInterval : Nat
  dropletStaleThreshold : Nat
  ticker : Option Nat
  timeOfLastUpdate : Nat
deriving DecidableEq, Repr

/-- NewRouteRegistry (helpers.go lines 98 to 111): an empty map and the
two durations taken from the configuration; the ticker starts out nil and
the last-update time at the zero instant. -/
def NewRouteRegistry (pruneStaleDropletsInterval dropletStaleThreshold : Nat) : RouteRegistry :=
  { byUri := []
    pruneStaleDropletsInterval := pruneStaleDropletsInterval
    dropletStaleThreshold := dropletStaleThreshold
    ticker := none
    timeOfLastUpdate := 0 }

/-- Register (helpers.go lines 113 to 129): records `t := time.Now()`,
lowercases the uri, fetches the pool or creates one via
`route.NewPool(r.dropletStaleThreshold / 4)`, puts the endpoint into it
and stores `t` as the last-update time.  The two `time.Now()` instants of
the Go code (Register's `t` and the one inside `pool.Put`) are modelled as
the same instant `now`. -/
def RouteRegistry.Register (r : RouteRegistry) (uri : Uri) (endpoint : Endpoint) (now : Nat) :
    RouteRegistry :=
  let t := now
  let uri := uri.ToLower
  let pool :=
    match alFind uri r.byUri with
    | some pool => pool
    | none => NewPool (r.dropletStaleThreshold / 4)
  { r with byUri := alInsert uri (pool.Put endpoint now) r.byUri, timeOfLastUpdate := t }

/-- Unregister (helpers.go lines 131 to 146): lowercases the uri; when a
pool exists, removes the endpoint from it and deletes the whole route
entry when the pool became empty. -/
def RouteRegistry.Unregister (r : RouteRegistry) (uri : Uri) (endpoint : Endpoint) :
    RouteRegistry :=
  let uri := uri.ToLower
  match alFind uri r.byUri with
  | none => r
  | some pool =>
    let pool := pool.Remove endpoint
    if pool.IsEmpty then { r with byUri := alDelete uri r.byUri }
    else { r with byUri := alInsert uri pool r.byUri }

/-- The wildcard-fallback loop of Lookup (helpers.go lines 152 to 158):
starting from the already-lowercased uri, return the pool of the first
uri found in the map, deriving the next wildcard form while the uri is
absent and NextWildcard has not reported an error; note that on the
iteration where NextWildcard errors, the uri it returned is still looked
up once before the loop exits. -/
def lookupFrom (m : List (Uri × Pool)) (uri : Uri) : Option Pool :=
  match alFind uri m with
  | some pool => some pool
  | none =>
    let nw := uri.NextWildcard
    if h : nw.2 = true then lookupFrom m nw.1
    else alFind nw.1 m
termination_by uriMeasure uri
decreasing_by exact nextWildcard_snd_true_measure uri h

/-- Lookup (helpers.go lines 148 to 162): lowercases the uri and runs the
wildcard-fallback loop over the map. -/
def RouteRegistry.Lookup (r : RouteRegistry) (uri : Uri) : Option Pool :=
  lookupFrom r.byUri uri.ToLower

/-- NumUris (helpers.go lines 190 to 196): the size of the map. -/
def RouteRegistry.NumUris (r : RouteRegistry) : Nat :=
  r.byUri.length

/-- TimeOfLastUpdate (helpers.go lines 198 to 204). -/
def RouteRegistry.TimeOfLastUpdate (r : RouteRegistry) : Nat :=
  r.timeOfLastUpdate

/-- Insertion into the set of canonical addresses that NumEndpoints
accumulates (the Go code collects them as the keys of a map used as a
set). -/
def setInsert (s : List String) (a : String) : List String :=
  if a ∈ s then s else s ++ [a]

/-- NumEndpoints (helpers.go lines 206 to 218): walk every pool with
`Each`, collecting canonical addresses into a set, and return the size of
that set. -/
def RouteRegistry.NumEndpoints (r : RouteRegistry) : Nat :=
  (r.byUri.foldl (fun s kp => kp.2.Each (fun s2 e => setInsert s2 e.CanonicalAddr) s)
    ([] : List String)).length

/-- The body of pruneStaleDroplets' map iteration (helpers.go lines 229
to 234): prune each pool with the registry-wide threshold and drop the
route entry when the pool became empty. -/
def pruneByUri (staleThreshold now : Nat) : List (Uri × Pool) → List (Uri × Pool)
  | [] => []
  | kp :: rest =>
    let pool := kp.2.PruneEndpoints staleThreshold now
    if pool.IsEmpty then pruneByUri staleThreshold now rest
    else (kp.1, pool) :: pruneByUri staleThreshold now rest

/-- pruneStaleDroplets (helpers.go lines 227 to 236).  The `time.Now()`
inside the pool's PruneEndpoints is the `now` argument. -/
def RouteRegistry.pruneStaleDroplets (r : RouteRegistry) (now : Nat) : RouteRegistry :=
  { r with byUri := pruneByUri r.dropletStaleThreshold now r.byUri }

/-- pauseStaleTracker (helpers.go lines 238 to 247): MarkUpdated on every
pool at the current instant. -/
def RouteRegistry.pauseStaleTracker (r : RouteRegistry) (now : Nat) : RouteRegistry :=
  { r with byUri := r.byUri.map (fun kp => (kp.1, kp.2.MarkUpdated now)) }

/-- The chain of wildcard forms derived from a uri by iterating
NextWildcard until it reports exhaustion; this is exactly the sequence of
uris the fallback loop of Lookup tries after the exact key. -/
def wildcardChain (uri : Uri) : List Uri :=
  let nw := uri.NextWildcard
  if h : nw.2 = true then nw.1 :: wildcardChain nw.1
  else []
termination_by uriMeasure uri
decreasing_by exact nextWildcard_snd_true_measure uri h

/-- First pool found in the map along a list of candidate uris. -/
def firstFind (m : List (Uri × Pool)) : List Uri → Option Pool
  | [] => none
  | u :: us =>
    match alFind u m with
    | some pool => some pool
    | none => firstFind m us

/-- The fallback loop of Lookup (helpers.go lines 152 to 158) with the
route package's NextWildcard abstracted as the parameter `nw` (the loop in
the source is generic in what NextWildcard returns, which lives outside
the excerpt) and an explicit bound `fuel` on the number of derivation
steps.  As in the source, when `nw` reports an error the uri it returned
is still looked up once before the loop exits. -/
def lookupFromWith (nw : Uri → Uri × Bool) (m : List (Uri × Pool)) :
    Nat → Uri → Option Pool
  | 0, uri => alFind uri m
  | fuel + 1, uri =>
    match alFind uri m with
    | some pool => some pool
    | none =>
      match nw uri with
      | (uri2, true) => lookupFromWith nw m fuel uri2
      | (uri2, false) => alFind uri2 m

/-- Every canonical address stored in the registry, with multiplicity,
pool by pool. -/
def registryAddrs (r : RouteRegistry) : List String :=
  (r.byUri.map (fun kp => kp.2.entries.map (fun kv => kv.2.endpoint.CanonicalAddr))).flatten

/-- Models a Go `time.Ticker`: whether its runtime timer is still firing,
and whether a tick is sitting in its (one-slot, buffered) channel.
`time.Ticker.Stop` deactivates the timer but, per its documentation, does
not close or drain the channel, so a pending tick survives a Stop. -/
structure Ticker where
  active : Bool
  pending : Bool
deriving DecidableEq, Repr

/-- State of a registry together with the runtime objects that
StartPruningCycle and StopPruningCycle manipulate: the table of every
ticker ever created by `time.NewTicker` (the registry's `ticker` field
holds an index into it) and the count of sweep goroutines spawned. -/
structure SweepSys where
  reg : RouteRegistry
  tickers : List Ticker
  goroutines : Nat
deriving DecidableEq, Repr

/-- A freshly constructed registry with no runtime objects. -/
def SweepSys.init (r : RouteRegistry) : SweepSys :=
  { reg := r, tickers := [], goroutines := 0 }

/-- StartPruningCycle (helpers.go lines 164 to 180): when the configured
interval is positive, create a new ticker with `time.NewTicker`, store it
in the registry's ticker field, and spawn a goroutine that sweeps on every
tick.  Note that the source neither stops a previously stored ticker nor
reuses the existing goroutine. -/
def SweepSys.StartPruningCycle (s : SweepSys) : SweepSys :=
  if s.reg.pruneStaleDropletsInterval > 0 then
    { reg := { s.reg with ticker := some s.tickers.length }
      tickers := s.tickers ++ [{ active := true, pending := false }]
      goroutines := s.goroutines + 1 }
  else s

/-- StopPruningCycle (helpers.go lines 182 to 188): when the ticker field
is non-nil, call `Stop` on that ticker; this only deactivates its runtime
timer, leaving any buffered tick in place and the sweep goroutine
running. -/
def SweepSys.StopPruningCycle (s : SweepSys) : SweepSys :=
  match s.reg.ticker with
  | none => s
  | some i =>
    let t := s.tickers.getD i { active := false, pending := false }
    { s with tickers := s.tickers.set i { t with active := false } }

/-- Runtime behavior of a live `time.Ticker`: while active it may deposit
a tick into its one-slot channel at any moment. -/
def SweepSys.tickFire (s : SweepSys) (i : Nat) : SweepSys :=
  let t := s.tickers.getD i { active := false, pending := false }
  if t.active then { s with tickers := s.tickers.set i { t with pending := true } }
  else s

/-- A sweep goroutine (helpers.go lines 170 to 178) can execute a prune
pass exactly when at least one such goroutine exists and the ticker
currently stored in the registry's ticker field has a tick waiting in its
channel. -/
def SweepSys.sweepEnabled (s : SweepSys) : Bool :=
  s.goroutines != 0 &&
    match s.reg.ticker with
    | some i => (s.tickers.getD i { active := false, pending := false }).pending
    | none => false

/-- One iteration of a sweep goroutine's loop: when enabled, consume the
pending tick and run pruneStaleDroplets. -/
def SweepSys.sweepStep (s : SweepSys) (now : Nat) : SweepSys :=
  match s.reg.ticker with
  | none => s
  | some i =>
    let t := s.tickers.getD i { active := false, pending := false }
    if s.goroutines != 0 && t.pending then
      { s with reg := s.reg.pruneStaleDroplets now
               tickers := s.tickers.set i { t with pending := false } }
    else s

/-- Number of tickers whose runtime timer is still firing. -/
def SweepSys.activeTickers (s : SweepSys) : Nat :=
  (s.tickers.filter (fun t => t.active)).length

/-- Registry states reachable from a fresh registry by any sequence of
Register, Unregister and pruning-sweep operations, at arbitrary
instants. -/
inductive Reachable : RouteRegistry → Prop
  | fresh (interval threshold : Nat) : Reachable (NewRouteRegistry interval threshold)
  | register {r : RouteRegistry} (uri : Uri) (e : Endpoint) (now : Nat) :
      Reachable r → Reachable (r.Register uri e now)
  | unregister {r : RouteRegistry} (uri : Uri) (e : Endpoint) :
      Reachable r → Reachable (r.Unregister uri e)
  | prune {r : RouteRegistry} (now : Nat) :
      Reachable r → Reachable (r.pruneStaleDroplets now)

theorem uriMeasure_pos (u : Uri) : 0 < uriMeasure u := by
  unfold uriMeasure
  split
  · rename_i h
    cases hh : u.host with
    | nil => rw [hh] at h; simp at h
    | cons a t => simp [hh]
  · omega

theorem nextWildcard_false_eq (u u2 : Uri) (h : u.NextWildcard = (u2, false)) :
    u2 = u := by
  obtain ⟨host, path⟩ := u
  cases host with
  | nil => simp [Uri.NextWildcard] at h; exact h.symm
  | cons l rest =>
    by_cases hl : l = "*"
    · cases rest with
      | nil => subst hl; simp [Uri.NextWildcard] at h; exact h.symm
      | cons r2 rest2 => simp [Uri.NextWildcard, hl] at h
    · simp [Uri.NextWildcard, hl] at h

theorem alFind_alInsert_self {α β : Type} [DecidableEq α] (k : α) (v : β)
    (m : List (α × β)) : alFind k (alInsert k v m) = some v := by
  induction m with
  | nil => simp [alInsert, alFind]
  | cons kv rest ih =>
    by_cases h : kv.1 = k
    · simp [alInsert, alFind, h]
    · simp [alInsert, alFind, h, ih]

theorem mem_alInsert {α β : Type} [DecidableEq α] {k : α} {v : β}
    {m : List (α × β)} {kv : α × β} (h : kv ∈ alInsert k v m) :
    kv = (k, v) ∨ kv ∈ m := by
  induction m with
  | nil => simp [alInsert] at h; simp [h]
  | cons kv0 rest ih =>
    by_cases h0 : kv0.1 = k
    · simp [alInsert, h0] at h
      rcases h with h | h
      · exact Or.inl h
      · exact Or.inr (List.mem_cons_of_mem _ h)
    · simp [alInsert, h0] at h
      rcases h with h | h
      · exact Or.inr (by simp [h])
      · rcases ih h with h2 | h2
        · exact Or.inl h2
        · exact Or.inr (List.mem_cons_of_mem _ h2)

theorem mem_alDelete {α β : Type} [DecidableEq α] {k : α}
    {m : List (α × β)} {kv : α × β} (h : kv ∈ alDelete k m) : kv ∈ m := by
  induction m with
  | nil => simp [alDelete] at h
  | cons kv0 rest ih =>
    by_cases h0 : kv0.1 = k
    · simp [alDelete, h0] at h
      exact List.mem_cons_of_mem _ (ih h)
    · simp [alDelete, h0] at h
      rcases h with h | h
      · simp [h]
      · exact List.mem_cons_of_mem _ (ih h)

theorem alInsert_isEmpty {α β : Type} [DecidableEq α] (k : α) (v : β)
    (m : List (α × β)) : (alInsert k v m).isEmpty = false := by
  cases m with
  | nil => simp [alInsert]
  | cons kv rest =>
    by_cases h : kv.1 = k <;> simp [alInsert, h]

theorem put_isEmpty_false (p : Pool) (e : Endpoint) (now : Nat) :
    (p.Put e now).IsEmpty = false := by
  unfold Pool.Put Pool.IsEmpty
  exact alInsert_isEmpty _ _ _

theorem mem_pruneByUri {staleThreshold now : Nat} {m : List (Uri × Pool)}
    {kp : Uri × Pool} (h : kp ∈ pruneByUri staleThreshold now m) :
    kp.2.IsEmpty = false := by
  induction m with
  | nil => simp [pruneByUri] at h
  | cons kp0 rest ih =>
    unfold pruneByUri at h
    by_cases h0 : (kp0.2.PruneEndpoints staleThreshold now).IsEmpty = true
    · simp only [h0, if_true] at h
      exact ih h
    · simp only [h0, if_false, Bool.false_eq_true] at h
      rcases List.mem_cons.mp h with heq | hmem
      · rw [heq]
        simpa using h0
      · exact ih hmem

theorem lookupFrom_eq_firstFind_aux (m : List (Uri × Pool)) :
    ∀ (n : Nat) (uri : Uri), uriMeasure uri ≤ n →
      lookupFrom m uri = firstFind m (uri :: wildcardChain uri) := by
  intro n
  induction n with
  | zero =>
    intro uri h
    have := uriMeasure_pos uri
    omega
  | succ n ih =>
    intro uri h
    unfold lookupFrom wildcardChain
    cases hf : alFind uri m with
    | some pool => simp [firstFind, hf]
    | none =>
      cases hnw : uri.NextWildcard with
      | mk uri2 ok =>
        cases ok with
        | true =>
          have hlt := nextWildcard_true_measure uri uri2 hnw
          have heq := ih uri2 (by omega)
          simp [firstFind, hf, hnw, heq]
        | false =>
          have he : uri2 = uri := nextWildcard_false_eq uri uri2 hnw
          subst he
          simp [firstFind, hf, hnw]

theorem lookupFrom_eq_firstFind (m : List (Uri × Pool)) (uri : Uri) :
    lookupFrom m uri = firstFind m (uri :: wildcardChain uri) :=
  lookupFrom_eq_firstFind_aux m (uriMeasure uri) uri (Nat.le_refl _)

theorem nextWildcard_false_host (u u2 : Uri) (h : u.NextWildcard = (u2, false)) :
    u.host = [] ∨ u.host = ["*"] := by
  obtain ⟨host, path⟩ := u
  cases host with
  | nil => exact Or.inl rfl
  | cons l rest =>
    by_cases hl : l = "*"
    · cases rest with
      | nil => exact Or.inr (by simp [hl])
      | cons r2 rest2 => simp [Uri.NextWildcard, hl] at h
    · simp [Uri.NextWildcard, hl] at h

theorem wildcardChain_spec_aux :
    ∀ (n : Nat) (u : Uri), uriMeasure u ≤ n →
      List.Chain (fun a b => uriMeasure b < uriMeasure a) u (wildcardChain u)
      ∧ (wildcardChain u).length =
          (if u.host.headD "" = "*" then u.host.length - 1 else u.host.length) := by
  intro n
  induction n with
  | zero =>
    intro u h
    have := uriMeasure_pos u
    omega
  | succ n ih =>
    intro u h
    obtain ⟨host, path⟩ := u
    cases host with
    | nil =>
      unfold wildcardChain
      simp [Uri.NextWildcard]
    | cons l rest =>
      by_cases hl : l = "*"
      · subst hl
        cases rest with
        | nil =>
          unfold wildcardChain
          simp [Uri.NextWildcard]
        | cons r2 rest2 =>
          have hnw : Uri.NextWildcard { host := "*" :: r2 :: rest2, path := path } =
              ({ host := "*" :: rest2, path := path }, true) := by
            simp [Uri.NextWildcard]
          have hlt := nextWildcard_true_measure _ _ hnw
          obtain ⟨hchain, hlen⟩ := ih { host := "*" :: rest2, path := path } (by omega)
          unfold wildcardChain
          simp only [hnw]
          refine ⟨List.Chain.cons hlt hchain, ?_⟩
          simp [hlen]
      · have hnw : Uri.NextWildcard { host := l :: rest, path := path } =
            ({ host := "*" :: rest, path := path }, true) := by
          simp [Uri.NextWildcard, hl]
        have hlt := nextWildcard_true_measure _ _ hnw
        obtain ⟨hchain, hlen⟩ := ih { host := "*" :: rest, path := path } (by omega)
        unfold wildcardChain
        simp only [hnw]
        refine ⟨List.Chain.cons hlt hchain, ?_⟩
        simp [hlen, hl]

theorem setInsert_toFinset (s : List String) (a : String) :
    (setInsert s a).toFinset = insert a s.toFinset := by
  unfold setInsert
  split
  · rename_i h
    exact (Finset.insert_eq_self.mpr (List.mem_toFinset.mpr h)).symm
  · rw [List.toFinset_append, Finset.union_comm]
    simp only [List.toFinset_cons, List.toFinset_nil, insert_emptyc_eq]
    rw [Finset.insert_eq]

theorem setInsert_nodup (s : List String) (a : String) (hs : s.Nodup) :
    (setInsert s a).Nodup := by
  unfold setInsert
  split
  · exact hs
  · rename_i h
    simp [List.nodup_append, hs, h]

theorem foldl_setInsert_spec (l : List String) :
    ∀ s : List String, s.Nodup →
      (l.foldl setInsert s).Nodup
      ∧ (l.foldl setInsert s).toFinset = s.toFinset ∪ l.toFinset := by
  induction l with
  | nil =>
    intro s hs
    simp [hs]
  | cons a l ih =>
    intro s hs
    simp only [List.foldl_cons]
    obtain ⟨h1, h2⟩ := ih (setInsert s a) (setInsert_nodup s a hs)
    refine ⟨h1, ?_⟩
    rw [h2, setInsert_toFinset, List.toFinset_cons, Finset.insert_union, Finset.union_insert]

theorem length_foldl_setInsert (l : List String) :
    (l.foldl setInsert []).length = l.toFinset.card := by
  obtain ⟨h1, h2⟩ := foldl_setInsert_spec l [] (by simp)
  rw [← List.toFinset_card_of_nodup h1, h2]
  simp

theorem each_foldl (p : Pool) (s : List String) :
    p.Each (fun s2 e => setInsert s2 e.CanonicalAddr) s =
      (p.entries.map (fun kv => kv.2.endpoint.CanonicalAddr)).foldl setInsert s := by
  unfold Pool.Each
  rw [List.foldl_map]

theorem registry_foldl (m : List (Uri × Pool)) :
    ∀ s : List String,
      m.foldl (fun s2 kp => kp.2.Each (fun s3 e => setInsert s3 e.CanonicalAddr) s2) s =
        ((m.map (fun kp => kp.2.entries.map (fun kv => kv.2.endpoint.CanonicalAddr))).flatten).foldl
          setInsert s := by
  induction m with
  | nil => intro s; rfl
  | cons kp rest ih =>
    intro s
    simp only [List.foldl_cons, List.map_cons, List.flatten_cons, List.foldl_append]
    rw [each_foldl]
    exact ih _

theorem numEndpoints_foldl (r : RouteRegistry) :
    r.NumEndpoints = ((registryAddrs r).foldl setInsert []).length := by
  unfold RouteRegistry.NumEndpoints registryAddrs
  rw [registry_foldl]

/-- C1: for every sequence of Register, Unregister and pruning-sweep
operations starting from a fresh registry, every uri key present in the
map has a non-empty pool: Unregister deletes the route entry when the
pool it touched becomes empty, and the sweep deletes every route whose
pool becomes empty after pruning. -/
theorem registry_no_empty_pools (r : RouteRegistry) (h : Reachable r) :
    r.byUri.all (fun kp => !kp.2.IsEmpty) = true := by
  induction h with
  | fresh interval threshold => rfl
  | register uri e now hr ih =>
    rw [List.all_eq_true] at ih ⊢
    intro kp hkp
    simp only [RouteRegistry.Register] at hkp
    rcases mem_alInsert hkp with heq | hmem
    · rw [heq]
      simp [put_isEmpty_false]
    · exact ih kp hmem
  | unregister uri e hr ih =>
    rw [List.all_eq_true] at ih ⊢
    intro kp hkp
    simp only [RouteRegistry.Unregister] at hkp
    split at hkp
    · exact ih kp hkp
    · split at hkp
      · exact ih kp (mem_alDelete hkp)
      · rcases mem_alInsert hkp with heq | hmem
        · rw [heq]
          rename_i hne
          simp only [Bool.not_eq_true] at hne
          simp [hne]
        · exact ih kp hmem
  | prune now hr ih =>
    rw [List.all_eq_true]
    intro kp hkp
    simp only [RouteRegistry.pruneStaleDroplets] at hkp
    simp [mem_pruneByUri hkp]

/-- Witness for C1 at a concrete reachable state: a fresh registry after
one Register and one unrelated Unregister. -/
theorem registry_no_empty_pools_witness :
    (((NewRouteRegistry 2 8).Register { host := ["foo", "com"], path := "" }
        { addr := "10.0.0.1:80", tags := [] } 5).Unregister
        { host := ["bar", "com"], path := "" }
        { addr := "10.0.0.2:80", tags := [] }).byUri.all
      (fun kp => !kp.2.IsEmpty) = true :=
  registry_no_empty_pools _
    (Reachable.unregister _ _
      (Reachable.register _ _ _ (Reachable.fresh 2 8)))

/-- C2: Lookup normalizes the uri to lowercase and returns the first pool
found along the sequence consisting of the exact normalized key followed
by its wildcard forms in strictly decreasing specificity (each derived
from the previous one by NextWildcard); when that sequence is exhausted
with no match it returns not-found (none, Go's nil pool).  In particular
an exact match always beats any wildcard form. -/
theorem lookup_exact_then_wildcards (r : RouteRegistry) (uri : Uri) :
    r.Lookup uri = firstFind r.byUri (uri.ToLower :: wildcardChain uri.ToLower) :=
  lookupFrom_eq_firstFind r.byUri uri.ToLower

/-- C3 fails on the code: with a positive pruning interval, calling
StartPruningCycle twice allocates a second time.Ticker and spawns a second
sweep goroutine without ever stopping the first ticker (the source only
overwrites the registry's ticker field), so two active sweep timers exist
at once where the claim allows at most one. -/
theorem startPruningCycle_twice_two_active_tickers :
    ((SweepSys.init (NewRouteRegistry 1 4)).StartPruningCycle.StartPruningCycle).activeTickers = 2
    ∧ ((SweepSys.init
        (NewRouteRegistry 1 4)).StartPruningCycle.StartPruningCycle).goroutines = 2 := by
  constructor <;> rfl

/-- C4 holds in its first half and fails in its second half on the code:
StopPruningCycle on a never-started registry is a no-op (the nil check of
the source), but the stop is not synchronous: a tick already buffered in
the ticker's channel when StopPruningCycle is called survives the Stop
(time.Ticker.Stop neither closes nor drains the channel, and the sweep
goroutine is never terminated), so after Stop returns a sweep is still
enabled and executing it prunes the stale route, observably shrinking the
registry from one uri to none. -/
theorem stopPruningCycle_not_synchronous :
    (SweepSys.init (NewRouteRegistry 1 4)).StopPruningCycle = SweepSys.init (NewRouteRegistry 1 4)
    ∧ ((SweepSys.init ((NewRouteRegistry 1 4).Register
          { host := ["foo", "com"], path := "" }
          { addr := "10.0.0.1:80", tags := [] } 0)).StartPruningCycle.tickFire
          0).StopPruningCycle.sweepEnabled = true
    ∧ ((SweepSys.init ((NewRouteRegistry 1 4).Register
          { host := ["foo", "com"], path := "" }
          { addr := "10.0.0.1:80", tags := [] } 0)).StartPruningCycle.tickFire
          0).StopPruningCycle.reg.NumUris = 1
    ∧ (((SweepSys.init ((NewRouteRegistry 1 4).Register
          { host := ["foo", "com"], path := "" }
          { addr := "10.0.0.1:80", tags := [] } 0)).StartPruningCycle.tickFire
          0).StopPruningCycle.sweepStep 10).reg.NumUris = 0 := by
  refine ⟨rfl, ?_, ?_, ?_⟩ <;> decide

/-- C5: Register lowercases the uri, creates a pool for it if absent
(constructed with one quarter of the registry-wide staleness threshold),
puts the endpoint into the pool, and updates the registry's last-mutation
timestamp; it is a total function, so it always succeeds with no error
path. -/
theorem register_creates_quarter_threshold_pool :
    ∀ (r : RouteRegistry) (uri : Uri) (e : Endpoint) (now : Nat),
      alFind uri.ToLower (r.Register uri e now).byUri =
        some ((match alFind uri.ToLower r.byUri with
               | some pool => pool
               | none => NewPool (r.dropletStaleThreshold / 4)).Put e now)
      ∧ (r.Register uri e now).timeOfLastUpdate = now := by
  intro r uri e now
  constructor
  · simp only [RouteRegistry.Register]
    exact alFind_alInsert_self _ _ _
  · rfl

/-- C6: NumEndpoints counts the distinct canonical addresses across all
pools (the cardinality of the set of stored addresses), not the sum of
per-pool sizes; concretely, registering the same endpoint address under
two different uris yields NumEndpoints 1 while NumUris is 2. -/
theorem numEndpoints_distinct_addresses :
    (∀ r : RouteRegistry, r.NumEndpoints = (registryAddrs r).toFinset.card)
    ∧ (((NewRouteRegistry 0 0).Register { host := ["a", "com"], path := "" }
          { addr := "1.2.3.4:5", tags := [] } 0).Register
          { host := ["b", "com"], path := "" }
          { addr := "1.2.3.4:5", tags := [] } 0).NumEndpoints = 1
    ∧ (((NewRouteRegistry 0 0).Register { host := ["a", "com"], path := "" }
          { addr := "1.2.3.4:5", tags := [] } 0).Register
          { host := ["b", "com"], path := "" }
          { addr := "1.2.3.4:5", tags := [] } 0).NumUris = 2 := by
  refine ⟨?_, ?_, ?_⟩
  · intro r
    rw [numEndpoints_foldl, length_foldl_setInsert]
  · decide
  · decide

/-- C7: registration and lookup are case-insensitive round trips: two uris
with the same lowercase normalization address the same registry entry, so
after Register with one of them, Lookup with the other returns exactly the
registered pool, and that pool contains the endpoint (keyed by its
canonical address, with the registration instant as its timestamp). -/
theorem register_lookup_case_insensitive
    (r : RouteRegistry) (u1 u2 : Uri) (e : Endpoint) (now : Nat)
    (h : u1.ToLower = u2.ToLower) :
    (r.Register u1 e now).Lookup u2 =
      some ((match alFind u1.ToLower r.byUri with
             | some pool => pool
             | none => NewPool (r.dropletStaleThreshold / 4)).Put e now)
    ∧ alFind e.CanonicalAddr
        ((match alFind u1.ToLower r.byUri with
          | some pool => pool
          | none => NewPool (r.dropletStaleThreshold / 4)).Put e now).entries =
        some { endpoint := e, updatedAt := now } := by
  constructor
  · unfold RouteRegistry.Lookup
    rw [← h]
    unfold lookupFrom
    simp only [RouteRegistry.Register]
    rw [alFind_alInsert_self]
  · unfold Pool.Put
    exact alFind_alInsert_self _ _ _

/-- Witness for C7 at the spec's own example: Register with "Foo.Com" then
Lookup with "foo.com" returns the pool holding the endpoint. -/
theorem register_lookup_case_insensitive_witness :
    ((NewRouteRegistry 0 8).Register { host := ["Foo", "Com"], path := "" }
        { addr := "10.0.0.3:80", tags := [] } 7).Lookup
        { host := ["foo", "com"], path := "" } =
      some ((NewPool 2).Put { addr := "10.0.0.3:80", tags := [] } 7) := by
  have h := register_lookup_case_insensitive (NewRouteRegistry 0 8)
    { host := ["Foo", "Com"], path := "" } { host := ["foo", "com"], path := "" }
    { addr := "10.0.0.3:80", tags := [] } 7 (by decide)
  exact h.1.trans (by decide)

/-- C8: Lookup's wildcard-fallback loop terminates for every input uri:
the chain of wildcard forms it walks strictly decreases the specificity
measure at every step, and its length is exactly one generalization per
host label (one per label beyond the marker when the uri already starts
with the wildcard marker), so the loop never runs forever and stops
deterministically once NextWildcard reports exhaustion.  The loop itself
(lookupFrom) is a total function defined by recursion on this measure,
and it inspects exactly this finite chain of uris. -/
theorem lookup_fallback_terminates (u : Uri) :
    List.Chain (fun a b => uriMeasure b < uriMeasure a) u (wildcardChain u)
    ∧ (wildcardChain u).length =
        (if u.host.headD "" = "*" then u.host.length - 1 else u.host.length) :=
  wildcardChain_spec_aux (uriMeasure u) u (Nat.le_refl _)

/-- C9: TimeOfLastUpdate returns the timestamp of the most recent Register
call, and neither Unregister nor the pruning sweep changes the
last-mutation timestamp (Lookup is a pure query of the state and returns
only a pool, so it cannot change it). -/
theorem timeOfLastUpdate_frame :
    ∀ (r : RouteRegistry) (u1 u2 : Uri) (e1 e2 : Endpoint) (now np : Nat),
      (r.Register u1 e1 now).TimeOfLastUpdate = now
      ∧ (r.Unregister u2 e2).TimeOfLastUpdate = r.TimeOfLastUpdate
      ∧ (r.pruneStaleDroplets np).TimeOfLastUpdate = r.TimeOfLastUpdate := by
  intro r u1 u2 e1 e2 now np
  refine ⟨rfl, ?_, rfl⟩
  unfold RouteRegistry.Unregister RouteRegistry.TimeOfLastUpdate
  dsimp only
  split
  · rfl
  · split <;> rfl

/-- C10: in the fallback loop of Lookup, on the iteration where
NextWildcard reports an error, the uri returned alongside the error is
still looked up in the map once before the loop exits, so a registry map
containing that exhaustion-step uri makes Lookup return its pool instead
of not-found.  NextWildcard is not part of the analyzed excerpt, so the
loop is stated with it abstracted as `nw`; the spec-modelled
Uri.NextWildcard returns the receiver unchanged on failure, in which case
this extra lookup re-checks a key that was just found absent. -/
theorem lookup_exhaustion_step_lookup
    (nw : Uri → Uri × Bool) (m : List (Uri × Pool)) (uri uri2 : Uri)
    (fuel : Nat) (pool : Pool)
    (hmiss : alFind uri m = none) (hex : nw uri = (uri2, false))
    (hhit : alFind uri2 m = some pool) :
    lookupFromWith nw m (fuel + 1) uri = some pool := by
  unfold lookupFromWith
  rw [hmiss, hex]
  exact hhit

/-- Witness for C10: a map that contains the uri accompanying the
exhaustion error (but not the queried uri) makes the loop return that
pool. -/
theorem lookup_exhaustion_step_lookup_witness :
    lookupFromWith (fun _ => ({ host := ["w"], path := "" }, false))
      [({ host := ["w"], path := "" }, NewPool 0)] 1 { host := ["u"], path := "" } =
      some (NewPool 0) :=
  lookup_exhaustion_step_lookup _ _ _ _ 0 _ (by decide) rfl (by decide)

/-- Instantiating the abstracted loop with the spec-modelled NextWildcard
and enough fuel recovers the registry's lookupFrom, tying
lookupFromWith back to Lookup. -/
theorem lookupFromWith_eq_lookupFrom (m : List (Uri × Pool)) :
    ∀ (fuel : Nat) (uri : Uri), uriMeasure uri ≤ fuel →
      lookupFromWith Uri.NextWildcard m fuel uri = lookupFrom m uri := by
  intro fuel
  induction fuel with
  | zero =>
    intro uri h
    have := uriMeasure_pos uri
    omega
  | succ fuel ih =>
    intro uri h
    unfold lookupFromWith lookupFrom
    cases hf : alFind uri m with
    | some pool => simp
    | none =>
      cases hnw : uri.NextWildcard with
      | mk uri2 ok =>
        cases ok with
        | true =>
          have hlt := nextWildcard_true_measure uri uri2 hnw
          have heq := ih uri2 (by omega)
          simp [hnw, heq]
        | false => simp [hnw]
